import Mathlib

/-!
Verification of the Model Catalog & Mesh Preparation Engine of the
thingiverse-downloader application (src/app.py).

The development shallowly embeds the algorithmic core of the source:

* the directory scanner (`find_thumbnail`, `find_in_images_dir`,
  `find_first_match`, `find_readme`, `find_model_files`,
  `get_readme_content`, the thing-id extraction of `get_model_info`),
* the geometry pipeline of the STL branch of `browser_page`
  (`trimesh.center_mass`, `extents`, `apply_translation`, `apply_scale`),
* the style/opacity controls of the model viewer.

Filesystem paths are modelled as lists of path components; a directory
listing is modelled by the inductive `DirListing` (first-child /
next-sibling encoding of an ordered directory tree).  Python floats are
modelled by exact rationals; float operations whose result is non-finite
(division by a zero denominator) are modelled as failure (`Option.none`).
-/

namespace ThingDL

/-! ## String utilities -/

/-- Lexicographic comparison of character lists by Unicode code point,
the order Python's `list.sort()` uses on the file-name strings built by
the scanner. -/
def lexLe : List Char → List Char → Bool
  | [], _ => true
  | _ :: _, [] => false
  | a :: as, b :: bs =>
    if a.toNat < b.toNat then true
    else if b.toNat < a.toNat then false
    else lexLe as bs

/-- String order used by `list.sort()` in the source. -/
def strLe (a b : String) : Prop := lexLe a.toList b.toList = true

instance : DecidableRel strLe := fun a b => by unfold strLe; infer_instance

theorem lexLe_total : ∀ as bs : List Char, lexLe as bs = true ∨ lexLe bs as = true := by
  intro as
  induction as with
  | nil => intro bs; left; rfl
  | cons a as ih =>
    intro bs
    cases bs with
    | nil => right; rfl
    | cons b bs =>
      by_cases hab : a.toNat < b.toNat
      · left; simp [lexLe, hab]
      · by_cases hba : b.toNat < a.toNat
        · right; simp [lexLe, hba]
        · have h1 : ¬ b.toNat < a.toNat := hba
          rcases ih bs with h | h
          · left; simp [lexLe, hab, hba, h]
          · right; simp [lexLe, hab, hba, h]

theorem lexLe_trans :
    ∀ as bs cs : List Char, lexLe as bs = true → lexLe bs cs = true → lexLe as cs = true := by
  intro as
  induction as with
  | nil => intro bs cs _ _; rfl
  | cons a as ih =>
    intro bs cs h1 h2
    cases bs with
    | nil => simp [lexLe] at h1
    | cons b bs =>
      cases cs with
      | nil => simp [lexLe] at h2
      | cons c cs =>
        simp only [lexLe] at h1 h2 ⊢
        by_cases hab : a.toNat < b.toNat
        · by_cases hbc : b.toNat < c.toNat
          · have : a.toNat < c.toNat := Nat.lt_trans hab hbc
            simp [this]
          · by_cases hcb : c.toNat < b.toNat
            · simp [hbc, hcb] at h2
            · have hbc' : b.toNat = c.toNat := Nat.le_antisymm (Nat.le_of_not_lt hcb) (Nat.le_of_not_lt hbc)
              have : a.toNat < c.toNat := hbc' ▸ hab
              simp [this]
        · by_cases hba : b.toNat < a.toNat
          · simp [hab, hba] at h1
          · have hab' : a.toNat = b.toNat := Nat.le_antisymm (Nat.le_of_not_lt hba) (Nat.le_of_not_lt hab)
            by_cases hbc : b.toNat < c.toNat
            · have : a.toNat < c.toNat := hab' ▸ hbc
              simp [this]
            · by_cases hcb : c.toNat < b.toNat
              · simp [hbc, hcb] at h2
              · simp [hab, hba] at h1
                simp [hbc, hcb] at h2
                have hac : ¬ a.toNat < c.toNat := by
                  rw [hab']; exact hbc
                have hca : ¬ c.toNat < a.toNat := by
                  rw [hab']; exact hcb
                simp [hac, hca]
                exact ih bs cs h1 h2

instance : IsTotal String strLe := ⟨fun a b => lexLe_total a.toList b.toList⟩

instance : IsTrans String strLe :=
  ⟨fun a b c h1 h2 => lexLe_trans a.toList b.toList c.toList h1 h2⟩

/-- `list.sort()` of the source: stable sort by the string order. -/
def sortNames (l : List String) : List String := List.insertionSort strLe l

/-- The head of a sorted list is a least element: the meaning of
"return the lexicographically-first match" in the scanner. -/
theorem sortNames_head_min {l : List String} {a : String} {t : List String}
    (h : sortNames l = a :: t) : a ∈ l ∧ ∀ b ∈ l, strLe a b := by
  have hperm : (List.insertionSort strLe l).Perm l := List.perm_insertionSort strLe l
  have hsorted : List.Sorted strLe (List.insertionSort strLe l) :=
    List.sorted_insertionSort strLe l
  rw [sortNames] at h
  constructor
  · exact hperm.mem_iff.mp (h ▸ List.mem_cons_self a t)
  · intro b hb
    have hb' : b ∈ a :: t := h ▸ hperm.mem_iff.mpr hb
    rcases List.mem_cons.mp hb' with rfl | hbt
    · rcases lexLe_total b.toList b.toList with h | h <;> exact h
    · exact List.rel_of_sorted_cons (h ▸ hsorted) b hbt

/-- Bounded-depth core of the glob pattern matcher.  The only wildcard
appearing in the source's patterns is `*`; every other character is
matched literally.  The fuel argument only serves termination; it is
always called with enough fuel (see `globMatchChars`). -/
def globAux : Nat → List Char → List Char → Bool
  | 0, _, _ => false
  | fuel + 1, ps, cs =>
    match ps, cs with
    | [], [] => true
    | [], _ :: _ => false
    | '*' :: ps', [] => globAux fuel ps' []
    | '*' :: ps', c :: cs' => globAux fuel ps' (c :: cs') || globAux fuel ('*' :: ps') cs'
    | _ :: _, [] => false
    | p :: ps', c :: cs' => p == c && globAux fuel ps' cs'

def globMatchChars (ps cs : List Char) : Bool :=
  globAux (ps.length + cs.length + 1) ps cs

/-- `glob.glob(pattern)` membership test for a single directory entry:
wildcard matching, except that names starting with a dot are only
matched by patterns starting with a dot. -/
def globMatches (pattern name : String) : Bool :=
  match name.toList, pattern.toList with
  | '.' :: _, '.' :: _ => globMatchChars pattern.toList name.toList
  | '.' :: _, _ => false
  | _, _ => globMatchChars pattern.toList name.toList

/-- `os.path.splitext(name)[1]`: the suffix of `name` from its last dot,
empty when there is no dot or when every character before the last dot
is itself a dot (leading dots of a basename never start an extension). -/
def splitextExt (name : String) : String :=
  let cs := name.toList
  let tailLen := (cs.reverse.takeWhile (· ≠ '.')).length
  if tailLen = cs.length then ""  -- no dot anywhere
  else
    -- the last dot sits at position cs.length - tailLen - 1
    let sepIdx := cs.length - tailLen - 1
    if (cs.take sepIdx).any (· ≠ '.') then String.mk (cs.drop sepIdx) else ""

/-- `str.lower()` on one character: ASCII case folding (the names the
scanner lowercases are ASCII). -/
def charLower (c : Char) : Char :=
  if 65 ≤ c.toNat ∧ c.toNat ≤ 90 then Char.ofNat (c.toNat + 32) else c

/-- `str.lower()`. -/
def toLowerStr (s : String) : String := String.mk (s.toList.map charLower)

/-- Scan of the haystack for the needle, dropping one character at a
time. -/
def strContainsAux (ns : List Char) : List Char → Bool
  | [] => ns.isPrefixOf []
  | c :: hs' => if ns.isPrefixOf (c :: hs') then true else strContainsAux ns hs'

/-- `needle in hay` on Python strings: substring containment. -/
def strContains (hay needle : String) : Bool :=
  strContainsAux needle.toList hay.toList

/-- `re.search(r'(\d+)', name)` of `get_model_info`: the first maximal
run of digits of the name, if any. -/
def extract_thing_id (name : String) : Option String :=
  match name.toList.dropWhile (fun c => !c.isDigit) with
  | [] => none
  | cs => some (String.mk (cs.takeWhile Char.isDigit))

/-! ## Filesystem model

A directory listing in first-child / next-sibling form: `nil` ends a
listing, `file n rest` is a plain file named `n` followed by the rest of
the listing, `dir n entries rest` is a subdirectory named `n` with its
own listing `entries`, followed by the rest. -/

inductive DirListing where
  | nil : DirListing
  | file (name : String) (rest : DirListing) : DirListing
  | dir (name : String) (entries : DirListing) (rest : DirListing) : DirListing
deriving DecidableEq

namespace DirListing

/-- Names of the plain files of a listing (the `filenames` component of
an `os.walk` tuple). -/
def filesOf : DirListing → List String
  | .nil => []
  | .file n rest => n :: filesOf rest
  | .dir _ _ rest => filesOf rest

/-- Names of every entry of a listing, file or directory (what a
non-recursive `glob` pattern is matched against). -/
def namesOf : DirListing → List String
  | .nil => []
  | .file n rest => n :: namesOf rest
  | .dir n _ rest => n :: namesOf rest

/-- `os.path.exists(os.path.join(directory, name))` for a single
component: some entry of the listing, file or directory, has the name. -/
def hasEntry (l : DirListing) (name : String) : Bool :=
  (namesOf l).contains name

/-- The listing of the first subdirectory with the given name, if the
name denotes a subdirectory. -/
def findDir : DirListing → String → Option DirListing
  | .nil, _ => none
  | .file _ rest, n => findDir rest n
  | .dir d entries rest, n => if d = n then some entries else findDir rest n

end DirListing

/-- The subtree part of `os.walk`: every strict subdirectory of `cur`,
depth-first and in listing order, with its component path and file
names. -/
def subWalk (cur : List String) : DirListing → List (List String × List String)
  | .nil => []
  | .file _ rest => subWalk cur rest
  | .dir n entries rest =>
      ((cur ++ [n], entries.filesOf) :: subWalk (cur ++ [n]) entries) ++ subWalk cur rest

/-- `os.walk(cur)` on a directory with listing `l`: the directory itself
first, then every subdirectory depth-first. -/
def walkDir (cur : List String) (l : DirListing) : List (List String × List String) :=
  (cur, l.filesOf) :: subWalk cur l

/-! ## Directory scanner (`find_thumbnail` and friends) -/

/-- The image extensions of `AppConfig`. -/
def image_extensions : List String := [".png", ".jpg", ".jpeg"]

/-- The model extensions of `AppConfig`. -/
def model_extensions : List String := [".stl", ".obj", ".3mf"]

/-- The `image_files` list collected by `find_in_images_dir`: entries of
the `images` listing matching one of the `*<ext>` globs, extension by
extension. -/
def imageFilesOf (entries : DirListing) : List String :=
  image_extensions.flatMap fun ext => entries.namesOf.filter (globMatches ("*" ++ ext))

/-- `find_in_images_dir`: first image (by name order) of the `images`
subdirectory; `none` when the `images` entry is missing, is a plain
file, or holds no entry matching an image-extension pattern. -/
def find_in_images_dir (directory : DirListing) : Option (List String) :=
  if directory.hasEntry "images" then
    match directory.findDir "images" with
    | none => none  -- "images" exists but is a file: the globs inside it match nothing
    | some entries =>
      match sortNames (imageFilesOf entries) with
      | [] => none
      | n :: _ => some ["images", n]
  else none

/-- `find_first_match`: lexicographically-first entry of the model root
matching the glob pattern. -/
def find_first_match (directory : DirListing) (pattern : String) : Option String :=
  match sortNames (directory.namesOf.filter (globMatches pattern)) with
  | [] => none
  | n :: _ => some n

/-- The strategy loop of `find_thumbnail`: first non-`none` result. -/
def firstSome {α : Type} : List (Unit → Option α) → Option α
  | [] => none
  | s :: rest =>
    match s () with
    | some v => some v
    | none => firstSome rest

/-- `find_thumbnail(directory, thing_id)`: the four search strategies in
order of preference, stopping at the first hit.  Paths are returned
relative to the model root. -/
def find_thumbnail (directory : DirListing) (thing_id : String) : Option (List String) :=
  firstSome
    [ fun _ => find_in_images_dir directory,
      fun _ => (find_first_match directory "*_Thumbnail*.png").map fun n => [n],
      fun _ => (find_first_match directory ("*" ++ thing_id ++ "*Thumbnail*.png")).map fun n => [n],
      fun _ => (find_first_match directory "*.png").map fun n => [n] ]

/-- The fixed candidate list of `find_readme`. -/
def readme_patterns : List String :=
  ["README.txt", "readme.txt", "ReadMe.txt", "Readme.txt",
   "README.md", "readme.md", "ReadMe.md", "Readme.md",
   "instructions.txt", "Instructions.txt",
   "description.txt", "Description.txt"]

/-- The lowercase lookup list built by `find_readme`. -/
def lowercase_patterns : List String := readme_patterns.map toLowerStr

/-- `find_readme(directory)`: first existing candidate of the model
root, case-sensitively; otherwise the first file anywhere in the
`os.walk` of the directory whose lowercased name is a lowercased
candidate. -/
def find_readme (directory : DirListing) : Option (List String) :=
  match readme_patterns.find? (fun p => directory.hasEntry p) with
  | some p => some [p]
  | none =>
    (walkDir [] directory).findSome? fun pr =>
      (pr.2.find? fun f => lowercase_patterns.contains (toLowerStr f)).map fun f => pr.1 ++ [f]

/-- `os.path.join(base, rel)` on component paths. -/
def osJoin (base rel : List String) : List String := base ++ rel

/-- `os.path.relpath(p, base)` for `p` lying under `base`. -/
def osRelpath (p base : List String) : List String := p.drop base.length

/-- `find_model_files(directory)`: every file of the walk whose
lowercased extension is a model extension, as a
(relative path, absolute path) pair, in walk order.  `d` is the
component path of the scanned directory. -/
def find_model_files (d : List String) (directory : DirListing) :
    List (List String × List String) :=
  (walkDir d directory).flatMap fun pr =>
    (pr.2.filter fun f => model_extensions.contains (toLowerStr (splitextExt f))).map fun f =>
      (osRelpath (pr.1 ++ [f]) d, pr.1 ++ [f])

/-- `get_readme_content(directory)`: the readme path with its content;
a read failure degrades to a visible error string, it is not raised. -/
def get_readme_content (readFile : List String → Except String String)
    (directory : DirListing) : Option (List String) × String :=
  match find_readme directory with
  | none => (none, "")
  | some p =>
    match readFile p with
    | .ok content => (some p, content)
    | .error e => (some p, "Error reading README: " ++ e)

/-! ## Geometry pipeline

The STL branch of the model viewer runs, on the loaded mesh:
`apply_translation(-center_mass)`, `scale = 100.0 / max(extents)`,
`apply_scale(scale)`.  Coordinates are exact rationals here; the float
divisions of the source whose denominator is zero (which yield nan/inf
floats and an unusable mesh) are modelled as failure (`none`). -/

structure Vec3 where
  x : ℚ
  y : ℚ
  z : ℚ
deriving DecidableEq

namespace Vec3

def add (a b : Vec3) : Vec3 := ⟨a.x + b.x, a.y + b.y, a.z + b.z⟩

def neg (a : Vec3) : Vec3 := ⟨-a.x, -a.y, -a.z⟩

def smul (s : ℚ) (a : Vec3) : Vec3 := ⟨s * a.x, s * a.y, s * a.z⟩

def sub (a b : Vec3) : Vec3 := ⟨a.x - b.x, a.y - b.y, a.z - b.z⟩

def cross (a b : Vec3) : Vec3 :=
  ⟨a.y * b.z - a.z * b.y, a.z * b.x - a.x * b.z, a.x * b.y - a.y * b.x⟩

def zero : Vec3 := ⟨0, 0, 0⟩

end Vec3

/-- A loaded mesh: vertex positions and triangular faces as index
triples into the vertex list. -/
structure Mesh where
  vertices : List Vec3
  faces : List (Nat × Nat × Nat)
deriving DecidableEq

namespace Mesh

/-- The coordinate triple of one face (out-of-range indices, which
`trimesh` rejects, default to the origin; the meshes considered here
are well-indexed). -/
def triangleOf (m : Mesh) (f : Nat × Nat × Nat) : Vec3 × Vec3 × Vec3 :=
  (m.vertices.getD f.1 Vec3.zero, m.vertices.getD f.2.1 Vec3.zero,
   m.vertices.getD f.2.2 Vec3.zero)

def trianglesOf (m : Mesh) : List (Vec3 × Vec3 × Vec3) :=
  m.faces.map m.triangleOf

end Mesh

/-- `cross(v1 - v0, v2 - v0)` of a triangle, as `trimesh` computes for
its mass properties. -/
def triCross (t : Vec3 × Vec3 × Vec3) : Vec3 :=
  Vec3.cross (Vec3.sub t.2.1 t.1) (Vec3.sub t.2.2 t.1)

/-- The `f2` subexpression of the Eberly surface integrals used by
`trimesh.triangles.mass_properties`, one coordinate at a time. -/
def f2sub (w0 w1 w2 : ℚ) : ℚ := w0 ^ 2 + w1 ^ 2 + w0 * w1 + w2 * (w0 + w1 + w2)

/-- The signed volume integral of `trimesh.triangles.mass_properties`:
`(1/6) * Σ cross_x * (x0 + x1 + x2)` over the faces. -/
def meshVolume (m : Mesh) : ℚ :=
  ((m.trianglesOf.map fun t => (triCross t).x * (t.1.x + t.2.1.x + t.2.2.x)).sum) / 6

/-- The first moment integrals of `trimesh.triangles.mass_properties`:
`(1/24) * Σ cross * f2`, componentwise. -/
def meshMoment (m : Mesh) : Vec3 :=
  ⟨((m.trianglesOf.map fun t => (triCross t).x * f2sub t.1.x t.2.1.x t.2.2.x).sum) / 24,
   ((m.trianglesOf.map fun t => (triCross t).y * f2sub t.1.y t.2.1.y t.2.2.y).sum) / 24,
   ((m.trianglesOf.map fun t => (triCross t).z * f2sub t.1.z t.2.1.z t.2.2.z).sum) / 24⟩

/-- `trimesh.center_mass`: the moment integrals divided by the volume
integral.  A zero volume integral makes the float quotients of the
source nan; that case is modelled as `none`. -/
def center_mass (m : Mesh) : Option Vec3 :=
  if meshVolume m = 0 then none
  else some ⟨(meshMoment m).x / meshVolume m, (meshMoment m).y / meshVolume m,
             (meshMoment m).z / meshVolume m⟩

/-- Largest value of a nonempty list (`0` on `[]`, never used there). -/
def axisMax : List ℚ → ℚ
  | [] => 0
  | a :: t => t.foldl max a

/-- Smallest value of a nonempty list (`0` on `[]`, never used there). -/
def axisMin : List ℚ → ℚ
  | [] => 0
  | a :: t => t.foldl min a

def xsOf (m : Mesh) : List ℚ := m.vertices.map (·.x)
def ysOf (m : Mesh) : List ℚ := m.vertices.map (·.y)
def zsOf (m : Mesh) : List ℚ := m.vertices.map (·.z)

/-- `trimesh.extents`: axis-aligned bounding-box side lengths (defined
for meshes with at least one vertex). -/
def extentsOf (m : Mesh) : Vec3 :=
  ⟨axisMax (xsOf m) - axisMin (xsOf m),
   axisMax (ysOf m) - axisMin (ysOf m),
   axisMax (zsOf m) - axisMin (zsOf m)⟩

/-- `max(tm_mesh.extents)`; `none` on an empty vertex list, where
`trimesh` has no bounds. -/
def maxExtent (m : Mesh) : Option ℚ :=
  match m.vertices with
  | [] => none
  | _ :: _ => some (max (max (extentsOf m).x (extentsOf m).y) (extentsOf m).z)

/-- `tm_mesh.apply_translation(t)`. -/
def apply_translation (m : Mesh) (t : Vec3) : Mesh :=
  { m with vertices := m.vertices.map (Vec3.add · t) }

/-- `tm_mesh.apply_scale(s)`. -/
def apply_scale (m : Mesh) (s : ℚ) : Mesh :=
  { m with vertices := m.vertices.map (Vec3.smul s) }

/-- The normalization performed by the STL branch of `browser_page`:

    tm_mesh.apply_translation(-tm_mesh.center_mass)
    scale = 100.0 / max(tm_mesh.extents)
    tm_mesh.apply_scale(scale)

`none` models the runs in which a zero denominator (zero volume
integral or zero extents) makes the float pipeline produce a
non-finite, unusable result. -/
def normalize (m : Mesh) : Option Mesh :=
  match center_mass m with
  | none => none
  | some c =>
    let m1 := apply_translation m (Vec3.neg c)
    match maxExtent m1 with
    | none => none
    | some e => if e = 0 then none else some (apply_scale m1 (100 / e))

/-- The arithmetic mean of the vertex positions (what the spec calls
the mass centroid). -/
def vertexMean (m : Mesh) : Vec3 :=
  ⟨(xsOf m).sum / m.vertices.length, (ysOf m).sum / m.vertices.length,
   (zsOf m).sum / m.vertices.length⟩

/-! ## Style resolver and preview dispatch -/

/-- The attributes of the `go.Mesh3d` trace that the appearance
controls manipulate. -/
structure Mesh3dTrace where
  colorscale : Option String
  intensity : Option (List ℚ)
  color : Option String
  opacity : ℚ
deriving DecidableEq

/-- The trace built by the trimesh success path:
`intensity=z, colorscale='Viridis', opacity=1.0`. -/
def initialTrace (z : List ℚ) : Mesh3dTrace :=
  { colorscale := some "Viridis", intensity := some z, color := none, opacity := 1 }

/-- The entries of the Color Style selectbox. -/
def color_options : List String :=
  ["Viridis", "Plasma", "Inferno", "Magma", "Cividis", "Rainbow", "Solid Blue", "Solid Green"]

/-- The opacity slider: `st.slider(min_value=0.1, max_value=1.0)` can
only yield values inside its bounds; requesting a value outside them
yields the nearest bound. -/
def sliderOpacity (q : ℚ) : ℚ := max (1 / 10) (min 1 q)

/-- RGB values of the two named solid colors used by the source. -/
def namedColorRGB (c : String) : Option (Nat × Nat × Nat) :=
  if c = "royalblue" then some (65, 105, 225)
  else if c = "mediumseagreen" then some (60, 179, 113)
  else none

/-- The appearance-update branch of `browser_page`.  `hasattr(fig.data[0],
'intensity')` is `True` for every `go.Mesh3d` trace (plotly exposes every
declared attribute), so the first branch is guarded only by the style
name. -/
def apply_style (fig : Mesh3dTrace) (color_option : String) (opacity : ℚ) : Mesh3dTrace :=
  if !(strContains color_option "Solid") then
    { fig with colorscale := some (toLowerStr color_option), opacity := opacity }
  else if strContains color_option "Solid Blue" then
    { fig with colorscale := none, intensity := none, color := some "royalblue",
               opacity := opacity }
  else if strContains color_option "Solid Green" then
    { fig with colorscale := none, intensity := none, color := some "mediumseagreen",
               opacity := opacity }
  else fig

/-- The style resolver: slider-constrained opacity applied to the
initial trace by the selected style. -/
def resolve_style (color_option : String) (q : ℚ) (z : List ℚ) : Mesh3dTrace :=
  apply_style (initialTrace z) color_option (sliderOpacity q)

/-- Outcome of a preview request in the model viewer. -/
inductive PreviewOutcome where
  | stlPreview (result : Option Mesh) : PreviewOutcome
  | unsupportedFormat : PreviewOutcome
  | loadFailure (message : String) : PreviewOutcome
deriving DecidableEq

/-- The format dispatch of the model-viewer tab: only a path whose
lowercased extension is `.stl` is handed to the geometry loader; every
other recognized model file gets the download-only info message.  The
loader is passed as a function so that the dispatch is visibly
independent of it for non-STL files. -/
def preview_dispatch (load : Unit → Except String Mesh) (path : List String) : PreviewOutcome :=
  let ext := toLowerStr (splitextExt (path.getLastD ""))
  if ext = ".stl" then
    match load () with
    | .ok m => .stlPreview (some m)
    | .error e => .loadFailure e
  else .unsupportedFormat

/-! ## Concrete inputs used by the witnesses and counterexamples -/

/-- Regular tetrahedron-like solid with vertices at the origin and at
distance 6 along each axis; its volumetric centroid and its vertex mean
coincide, both at (3/2, 3/2, 3/2). -/
def tetra : Mesh :=
  { vertices := [⟨0, 0, 0⟩, ⟨6, 0, 0⟩, ⟨0, 6, 0⟩, ⟨0, 0, 6⟩],
    faces := [(0, 2, 1), (0, 1, 3), (0, 3, 2), (1, 2, 3)] }

/-- `tetra` after normalization. -/
def tetraN : Mesh :=
  { vertices := [⟨-25, -25, -25⟩, ⟨75, -25, -25⟩, ⟨-25, 75, -25⟩, ⟨-25, -25, 75⟩],
    faces := [(0, 2, 1), (0, 1, 3), (0, 3, 2), (1, 2, 3)] }

/-- The same solid as `tetra` with the face opposite the origin split at
its barycenter (2, 2, 2): the volumetric centroid stays at
(3/2, 3/2, 3/2) while the vertex mean moves to (8/5, 8/5, 8/5). -/
def mesh5 : Mesh :=
  { vertices := [⟨0, 0, 0⟩, ⟨6, 0, 0⟩, ⟨0, 6, 0⟩, ⟨0, 0, 6⟩, ⟨2, 2, 2⟩],
    faces := [(0, 2, 1), (0, 1, 3), (0, 3, 2), (1, 2, 4), (2, 3, 4), (3, 1, 4)] }

/-- An open single-triangle mesh in the plane `x = 1`. -/
def triMesh : Mesh :=
  { vertices := [⟨1, 1, 1⟩, ⟨1, 3, 1⟩, ⟨1, 1, 3⟩], faces := [(0, 1, 2)] }

/-- `triMesh` after one normalization. -/
def triMeshN : Mesh :=
  { vertices := [⟨25, 50, 50⟩, ⟨25, 150, 50⟩, ⟨25, 50, 150⟩], faces := [(0, 1, 2)] }

/-- `triMeshN` after a second normalization: the x coordinates moved
from 25 to 25/2. -/
def triMeshNN : Mesh :=
  { vertices := [⟨25 / 2, 50, 50⟩, ⟨25 / 2, 150, 50⟩, ⟨25 / 2, 50, 150⟩],
    faces := [(0, 1, 2)] }

/-- A degenerate single-point mesh: one triangle whose three vertices
coincide, so every bounding-box extent is zero. -/
def singlePointMesh : Mesh :=
  { vertices := [⟨1, 2, 3⟩, ⟨1, 2, 3⟩, ⟨1, 2, 3⟩], faces := [(0, 1, 2)] }

/-- Model root of a model named "gadget" (no digits, hence no extracted
identifier): no `images` directory, no `*_Thumbnail*.png` file, but one
png with `Thumbnail` in its name and one png that sorts before it. -/
def gadgetTree : DirListing := .file "AThumbnail.png" (.file "AAA.png" .nil)

/-- Model root whose `images` subdirectory holds two images, with more
pngs elsewhere in the root. -/
def imagesTree : DirListing :=
  .dir "images" (.file "z.png" (.file "a.jpg" .nil)) (.file "b.png" .nil)

/-- Model root holding a single readme whose name matches a candidate
only after lowercasing. -/
def upperReadmeTree : DirListing := .file "README.TXT" .nil

/-- Model root with one stl in the root and one obj in a subdirectory. -/
def modelFilesTree : DirListing :=
  .file "a.stl" (.dir "d" (.file "b.OBJ" (.file "c.txt" .nil)) .nil)

/-! ## Helper lemmas -/

theorem findDir_hasEntry {l : DirListing} {n : String} {es : DirListing}
    (h : l.findDir n = some es) : l.hasEntry n = true := by
  induction l with
  | nil => simp [DirListing.findDir] at h
  | file m rest ih =>
    simp only [DirListing.findDir] at h
    simp only [DirListing.hasEntry, DirListing.namesOf, List.contains_cons]
    rcases Bool.or_eq_true _ _ |>.mpr (Or.inr (ih h)) with h'
    exact h'
  | dir d entries rest ihe ihr =>
    simp only [DirListing.findDir] at h
    simp only [DirListing.hasEntry, DirListing.namesOf, List.contains_cons]
    by_cases hd : d = n
    · subst hd
      simp
    · rw [if_neg hd] at h
      exact Bool.or_eq_true _ _ |>.mpr (Or.inr (ihr h))

/-- Every path produced by `subWalk cur` strictly extends `cur`. -/
theorem subWalk_path {l : DirListing} :
    ∀ {cur : List String} {pr : List String × List String},
      pr ∈ subWalk cur l → ∃ s, s ≠ [] ∧ pr.1 = cur ++ s := by
  induction l with
  | nil => intro cur pr h; simp [subWalk] at h
  | file n rest ih => intro cur pr h; exact ih h
  | dir n entries rest ihe ihr =>
    intro cur pr h
    simp only [subWalk, List.cons_append, List.mem_append, List.mem_cons] at h
    rcases h with rfl | h | h
    · exact ⟨[n], by simp⟩
    · rcases ihe h with ⟨s, hs, hp⟩
      exact ⟨n :: s, by simp, by simpa using hp⟩
    · exact ihr h

/-- Every path produced by `walkDir cur` extends `cur`. -/
theorem walkDir_path {l : DirListing} {cur : List String}
    {pr : List String × List String} (h : pr ∈ walkDir cur l) :
    ∃ s, pr.1 = cur ++ s := by
  simp only [walkDir, List.mem_cons] at h
  rcases h with rfl | h
  · exact ⟨[], by simp⟩
  · rcases subWalk_path h with ⟨s, _, hp⟩
    exact ⟨s, hp⟩

theorem sum_map_add_const (l : List ℚ) (c : ℚ) :
    (l.map (fun x => x + c)).sum = l.sum + l.length * c := by
  induction l with
  | nil => simp
  | cons a t ih => simp [ih]; ring

theorem sum_map_mul_const (l : List ℚ) (c : ℚ) :
    (l.map (fun x => c * x)).sum = c * l.sum := by
  induction l with
  | nil => simp
  | cons a t ih => simp [ih]; ring

theorem foldl_max_map_add (t : List ℚ) (c : ℚ) :
    ∀ init : ℚ, (t.map (fun x => x + c)).foldl max (init + c) = t.foldl max init + c := by
  induction t with
  | nil => intro init; simp
  | cons a t ih =>
    intro init
    simp only [List.map_cons, List.foldl_cons]
    rw [max_add_add_right, ih]

theorem foldl_min_map_add (t : List ℚ) (c : ℚ) :
    ∀ init : ℚ, (t.map (fun x => x + c)).foldl min (init + c) = t.foldl min init + c := by
  induction t with
  | nil => intro init; simp
  | cons a t ih =>
    intro init
    simp only [List.map_cons, List.foldl_cons]
    rw [min_add_add_right, ih]

theorem foldl_max_map_mul {s : ℚ} (hs : 0 ≤ s) (t : List ℚ) :
    ∀ init : ℚ, (t.map (fun x => s * x)).foldl max (s * init) = s * t.foldl max init := by
  induction t with
  | nil => intro init; simp
  | cons a t ih =>
    intro init
    simp only [List.map_cons, List.foldl_cons]
    rw [← mul_max_of_nonneg _ _ hs, ih]

theorem foldl_min_map_mul {s : ℚ} (hs : 0 ≤ s) (t : List ℚ) :
    ∀ init : ℚ, (t.map (fun x => s * x)).foldl min (s * init) = s * t.foldl min init := by
  induction t with
  | nil => intro init; simp
  | cons a t ih =>
    intro init
    simp only [List.map_cons, List.foldl_cons]
    rw [← mul_min_of_nonneg _ _ hs, ih]

theorem le_foldl_max (t : List ℚ) : ∀ init : ℚ, init ≤ t.foldl max init := by
  induction t with
  | nil => intro init; simp
  | cons a t ih =>
    intro init
    simp only [List.foldl_cons]
    exact le_trans (le_max_left init a) (ih (max init a))

theorem foldl_min_le (t : List ℚ) : ∀ init : ℚ, t.foldl min init ≤ init := by
  induction t with
  | nil => intro init; simp
  | cons a t ih =>
    intro init
    simp only [List.foldl_cons]
    exact le_trans (ih (min init a)) (min_le_left init a)

theorem axisMin_le_axisMax {l : List ℚ} (h : l ≠ []) : axisMin l ≤ axisMax l := by
  cases l with
  | nil => exact absurd rfl h
  | cons a t =>
    simp only [axisMin, axisMax]
    exact le_trans (foldl_min_le t a) (le_foldl_max t a)

theorem axisMax_map_add (l : List ℚ) (c : ℚ) (h : l ≠ []) :
    axisMax (l.map (fun x => x + c)) = axisMax l + c := by
  cases l with
  | nil => exact absurd rfl h
  | cons a t => simpa [axisMax] using foldl_max_map_add t c a

theorem axisMin_map_add (l : List ℚ) (c : ℚ) (h : l ≠ []) :
    axisMin (l.map (fun x => x + c)) = axisMin l + c := by
  cases l with
  | nil => exact absurd rfl h
  | cons a t => simpa [axisMin] using foldl_min_map_add t c a

theorem axisMax_map_mul {s : ℚ} (hs : 0 ≤ s) (l : List ℚ) (h : l ≠ []) :
    axisMax (l.map (fun x => s * x)) = s * axisMax l := by
  cases l with
  | nil => exact absurd rfl h
  | cons a t => simpa [axisMax] using foldl_max_map_mul hs t a

theorem axisMin_map_mul {s : ℚ} (hs : 0 ≤ s) (l : List ℚ) (h : l ≠ []) :
    axisMin (l.map (fun x => s * x)) = s * axisMin l := by
  cases l with
  | nil => exact absurd rfl h
  | cons a t => simpa [axisMin] using foldl_min_map_mul hs t a

theorem Vec3.add_neg_zero (v : Vec3) : Vec3.add v (Vec3.neg Vec3.zero) = v := by
  cases v; simp [Vec3.add, Vec3.neg, Vec3.zero]

theorem Vec3.smul_one (v : Vec3) : Vec3.smul 1 v = v := by
  cases v; simp [Vec3.smul]

theorem translate_neg_zero (m : Mesh) : apply_translation m (Vec3.neg Vec3.zero) = m := by
  cases m; simp [apply_translation, Vec3.add_neg_zero]

theorem scale_one (m : Mesh) : apply_scale m 1 = m := by
  cases m
  simp only [apply_scale]
  congr 1
  rw [show Vec3.smul 1 = id from funext Vec3.smul_one, List.map_id]

theorem xsOf_translate (m : Mesh) (t : Vec3) :
    xsOf (apply_translation m t) = (xsOf m).map (fun x => x + t.x) := by
  simp only [xsOf, apply_translation, List.map_map]; rfl

theorem ysOf_translate (m : Mesh) (t : Vec3) :
    ysOf (apply_translation m t) = (ysOf m).map (fun x => x + t.y) := by
  simp only [ysOf, apply_translation, List.map_map]; rfl

theorem zsOf_translate (m : Mesh) (t : Vec3) :
    zsOf (apply_translation m t) = (zsOf m).map (fun x => x + t.z) := by
  simp only [zsOf, apply_translation, List.map_map]; rfl

theorem xsOf_scale (m : Mesh) (s : ℚ) :
    xsOf (apply_scale m s) = (xsOf m).map (fun x => s * x) := by
  simp only [xsOf, apply_scale, List.map_map]; rfl

theorem ysOf_scale (m : Mesh) (s : ℚ) :
    ysOf (apply_scale m s) = (ysOf m).map (fun x => s * x) := by
  simp only [ysOf, apply_scale, List.map_map]; rfl

theorem zsOf_scale (m : Mesh) (s : ℚ) :
    zsOf (apply_scale m s) = (zsOf m).map (fun x => s * x) := by
  simp only [zsOf, apply_scale, List.map_map]; rfl

theorem xsOf_ne_nil {m : Mesh} (h : m.vertices ≠ []) : xsOf m ≠ [] := by
  simpa [xsOf, List.map_eq_nil_iff] using h

theorem ysOf_ne_nil {m : Mesh} (h : m.vertices ≠ []) : ysOf m ≠ [] := by
  simpa [ysOf, List.map_eq_nil_iff] using h

theorem zsOf_ne_nil {m : Mesh} (h : m.vertices ≠ []) : zsOf m ≠ [] := by
  simpa [zsOf, List.map_eq_nil_iff] using h

theorem maxExtent_eq_some {m : Mesh} (h : m.vertices ≠ []) :
    maxExtent m = some (max (max (extentsOf m).x (extentsOf m).y) (extentsOf m).z) := by
  unfold maxExtent
  cases hm : m.vertices with
  | nil => exact absurd hm h
  | cons a t => simp

theorem maxExtent_vertices_ne_nil {m : Mesh} {e : ℚ} (h : maxExtent m = some e) :
    m.vertices ≠ [] := by
  intro hm
  rw [maxExtent, hm] at h
  exact Option.noConfusion h

theorem extentsOf_translate {m : Mesh} (t : Vec3) (h : m.vertices ≠ []) :
    extentsOf (apply_translation m t) = extentsOf m := by
  simp only [extentsOf, xsOf_translate, ysOf_translate, zsOf_translate,
    axisMax_map_add _ _ (xsOf_ne_nil h), axisMin_map_add _ _ (xsOf_ne_nil h),
    axisMax_map_add _ _ (ysOf_ne_nil h), axisMin_map_add _ _ (ysOf_ne_nil h),
    axisMax_map_add _ _ (zsOf_ne_nil h), axisMin_map_add _ _ (zsOf_ne_nil h)]
  ring_nf

theorem maxExtent_translate (m : Mesh) (t : Vec3) :
    maxExtent (apply_translation m t) = maxExtent m := by
  cases hm : m.vertices with
  | nil =>
    unfold maxExtent apply_translation
    simp [hm]
  | cons a l =>
    have h : m.vertices ≠ [] := by rw [hm]; exact List.cons_ne_nil a l
    have h' : (apply_translation m t).vertices ≠ [] := by
      simpa [apply_translation, List.map_eq_nil_iff] using h
    rw [maxExtent_eq_some h, maxExtent_eq_some h', extentsOf_translate t h]

theorem extentsOf_scale {m : Mesh} {s : ℚ} (hs : 0 ≤ s) (h : m.vertices ≠ []) :
    extentsOf (apply_scale m s) =
      ⟨s * (extentsOf m).x, s * (extentsOf m).y, s * (extentsOf m).z⟩ := by
  simp only [extentsOf, xsOf_scale, ysOf_scale, zsOf_scale,
    axisMax_map_mul hs _ (xsOf_ne_nil h), axisMin_map_mul hs _ (xsOf_ne_nil h),
    axisMax_map_mul hs _ (ysOf_ne_nil h), axisMin_map_mul hs _ (ysOf_ne_nil h),
    axisMax_map_mul hs _ (zsOf_ne_nil h), axisMin_map_mul hs _ (zsOf_ne_nil h)]
  ring_nf

theorem maxExtent_scale {m : Mesh} {s : ℚ} (hs : 0 ≤ s) :
    maxExtent (apply_scale m s) = (maxExtent m).map (fun e => s * e) := by
  cases hm : m.vertices with
  | nil =>
    unfold maxExtent apply_scale
    simp [hm]
  | cons a l =>
    have h : m.vertices ≠ [] := by rw [hm]; exact List.cons_ne_nil a l
    have h' : (apply_scale m s).vertices ≠ [] := by
      simpa [apply_scale, List.map_eq_nil_iff] using h
    rw [maxExtent_eq_some h, maxExtent_eq_some h', extentsOf_scale hs h]
    simp [mul_max_of_nonneg _ _ hs]

theorem maxExtent_nonneg {m : Mesh} {e : ℚ} (h : maxExtent m = some e) : 0 ≤ e := by
  have hne : m.vertices ≠ [] := maxExtent_vertices_ne_nil h
  rw [maxExtent_eq_some hne] at h
  have he : e = max (max (extentsOf m).x (extentsOf m).y) (extentsOf m).z :=
    (Option.some_injective _ h).symm
  have hx : 0 ≤ (extentsOf m).x :=
    sub_nonneg.mpr (axisMin_le_axisMax (xsOf_ne_nil hne))
  calc (0 : ℚ) ≤ (extentsOf m).x := hx
    _ ≤ max (extentsOf m).x (extentsOf m).y := le_max_left _ _
    _ ≤ max (max (extentsOf m).x (extentsOf m).y) (extentsOf m).z := le_max_left _ _
    _ = e := he.symm

/-- What a successful run of the normalization pipeline consists of. -/
theorem normalize_some_iff {m m' : Mesh} :
    normalize m = some m' ↔
      ∃ c e, center_mass m = some c ∧
        maxExtent (apply_translation m (Vec3.neg c)) = some e ∧ e ≠ 0 ∧
        m' = apply_scale (apply_translation m (Vec3.neg c)) (100 / e) := by
  unfold normalize
  cases hc : center_mass m with
  | none => simp
  | some c =>
    simp only [Option.some_inj]
    cases he : maxExtent (apply_translation m (Vec3.neg c)) with
    | none =>
      simp only [he]
      constructor
      · intro h; exact Option.noConfusion h
      · rintro ⟨c', e', hc', he', h0', hm'⟩
        have hcc : c' = c := hc'.symm
        subst hcc
        rw [he] at he'
        exact Option.noConfusion he'
    | some e =>
      simp only [he]
      by_cases h0 : e = 0
      · subst h0
        rw [if_pos rfl]
        constructor
        · intro h; exact Option.noConfusion h
        · rintro ⟨c', e', hc', he', h0', hm'⟩
          have hcc : c' = c := hc'.symm
          subst hcc
          rw [he] at he'
          exact absurd (Option.some_inj.mp he').symm h0'
      · rw [if_neg h0]
        constructor
        · intro h
          exact ⟨c, e, rfl, he, h0, (Option.some_inj.mp h).symm⟩
        · rintro ⟨c', e', hc', he', h0', hm'⟩
          have hcc : c' = c := hc'.symm
          subst hcc
          rw [he] at he'
          have hee : e' = e := (Option.some_inj.mp he').symm
          subst hee
          rw [hm']

/-! ## Claims -/

/-- C10: every (relative-path, absolute-path) pair produced by
model-file enumeration satisfies: joining the scanned directory with
the relative path yields exactly the absolute path, and the file's
extension, lowercased, is one of `.stl`, `.obj`, `.3mf`. -/
theorem c10_model_file_pairs (d : List String) (t : DirListing)
    (rel abst : List String) (h : (rel, abst) ∈ find_model_files d t) :
    osJoin d rel = abst ∧
      ∃ f, abst.getLast? = some f ∧ toLowerStr (splitextExt f) ∈ model_extensions := by
  unfold find_model_files at h
  rw [List.mem_flatMap] at h
  obtain ⟨pr, hpr, hmem⟩ := h
  rw [List.mem_map] at hmem
  obtain ⟨f, hf, heq⟩ := hmem
  obtain ⟨s, hs⟩ := walkDir_path hpr
  obtain ⟨hext, hfext⟩ := List.mem_filter.mp hf
  cases heq
  constructor
  · rw [hs, osRelpath, osJoin, List.append_assoc, List.drop_left]
  · exact ⟨f, List.getLast?_concat _, List.elem_iff.mp hfext⟩

/-- C10 witness: the stl at the root of `modelFilesTree` scanned from
`["base"]`. -/
theorem c10_model_file_pairs_witness :
    (["a.stl"], ["base", "a.stl"]) ∈ find_model_files ["base"] modelFilesTree ∧
      (osJoin ["base"] ["a.stl"] = ["base", "a.stl"] ∧
        ∃ f, ["base", "a.stl"].getLast? = some f ∧
          toLowerStr (splitextExt f) ∈ model_extensions) :=
  ⟨by decide, c10_model_file_pairs ["base"] modelFilesTree _ _ (by decide)⟩

/-- C8: a preview request for a model file whose lowercased extension is
`.obj` or `.3mf` yields the download-only `unsupportedFormat` outcome:
the result does not depend on the geometry loader at all (no parse is
attempted) and is never a `loadFailure` error. -/
theorem c8_preview_unsupported (load : Unit → Except String Mesh) (path : List String)
    (h : toLowerStr (splitextExt (path.getLastD "")) ∈ [".obj", ".3mf"]) :
    preview_dispatch load path = .unsupportedFormat ∧
      (∀ load', preview_dispatch load' path = preview_dispatch load path) ∧
      ∀ e, preview_dispatch load path ≠ .loadFailure e := by
  have hne : toLowerStr (splitextExt (path.getLastD "")) ≠ ".stl" := by
    simp only [List.mem_cons, List.not_mem_nil, or_false] at h
    rcases h with h | h <;> rw [h] <;> decide
  have hne' : toLowerStr (splitextExt (path.getLast?.getD "")) ≠ ".stl" := by
    simpa [List.getLastD_eq_getLast?] using hne
  simp [preview_dispatch, hne']

/-- C8 witness: a 3MF file with a loader that would fail if consulted. -/
theorem c8_preview_unsupported_witness :
    toLowerStr (splitextExt (["m", "part.3MF"].getLastD "")) ∈ [".obj", ".3mf"] ∧
      preview_dispatch (fun _ => .error "boom") ["m", "part.3MF"] = .unsupportedFormat :=
  ⟨by decide,
   (c8_preview_unsupported (fun _ => .error "boom") ["m", "part.3MF"] (by decide)).1⟩

/-- C9: when a readme was discovered but reading its content fails, the
scan still returns, with the content replaced by a visible error string
naming the failure; and a discovery-phase miss (no `images` entry at
all) is just that strategy finding nothing. -/
theorem c9_readme_read_failure (readF : List String → Except String String)
    (d : DirListing) (p : List String) (e : String) :
    (find_readme d = some p → readF p = .error e →
      get_readme_content readF d = (some p, "Error reading README: " ++ e)) ∧
      (d.hasEntry "images" = false → find_in_images_dir d = none) := by
  constructor
  · intro hfind hread
    simp [get_readme_content, hfind, hread]
  · intro himg
    unfold find_in_images_dir
    rw [himg]
    simp

/-- C9 witness: a root readme whose read fails with a permission error,
and a listing with no `images` entry. -/
theorem c9_readme_read_failure_witness :
    find_readme (.file "README.txt" .nil) = some ["README.txt"] ∧
      get_readme_content (fun _ => .error "Permission denied")
          (.file "README.txt" .nil) =
        (some ["README.txt"], "Error reading README: " ++ "Permission denied") ∧
      find_in_images_dir (.file "README.txt" .nil) = none := by
  refine ⟨by decide, ?_, ?_⟩
  · exact (c9_readme_read_failure (fun _ => .error "Permission denied")
      (.file "README.txt" .nil) ["README.txt"] "Permission denied").1 (by decide) rfl
  · exact (c9_readme_read_failure (fun _ => .error "Permission denied")
      (.file "README.txt" .nil) ["README.txt"] "Permission denied").2 (by decide)

/-- C7: for every style of the selectbox and every requested opacity,
the resolved trace carries the slider-constrained opacity, which lies
in [0.1, 1]; a gradient style keeps the per-vertex z scalar field and
records the lowercased gradient name, while a solid style clears the
scalar field and sets a single named color with definite RGB values. -/
theorem c7_style_resolver (color_option : String) (hmem : color_option ∈ color_options)
    (q : ℚ) (z : List ℚ) :
    (resolve_style color_option q z).opacity = sliderOpacity q ∧
      1 / 10 ≤ (resolve_style color_option q z).opacity ∧
      (resolve_style color_option q z).opacity ≤ 1 ∧
      (strContains color_option "Solid" = false →
        (resolve_style color_option q z).intensity = some z ∧
          (resolve_style color_option q z).colorscale = some (toLowerStr color_option)) ∧
      (strContains color_option "Solid" = true →
        (resolve_style color_option q z).intensity = none ∧
          ∃ c rgb, (resolve_style color_option q z).color = some c ∧
            namedColorRGB c = some rgb) := by
  have hb1 : 1 / 10 ≤ sliderOpacity q := le_max_left _ _
  have hb2 : sliderOpacity q ≤ 1 := max_le (by norm_num) (min_le_left _ _)
  simp only [color_options, List.mem_cons, List.not_mem_nil, or_false] at hmem
  rcases hmem with rfl | rfl | rfl | rfl | rfl | rfl | rfl | rfl <;>
    first
    | exact ⟨rfl, hb1, hb2, fun _ => ⟨rfl, rfl⟩, fun h => absurd h (by decide)⟩
    | exact ⟨rfl, hb1, hb2, fun h => absurd h (by decide),
        fun _ => ⟨rfl, "royalblue", (65, 105, 225), rfl, rfl⟩⟩
    | exact ⟨rfl, hb1, hb2, fun h => absurd h (by decide),
        fun _ => ⟨rfl, "mediumseagreen", (60, 179, 113), rfl, rfl⟩⟩

/-- C7 witness: the Solid Blue style with an out-of-range requested
opacity of 2. -/
theorem c7_style_resolver_witness :
    "Solid Blue" ∈ color_options ∧
      (resolve_style "Solid Blue" 2 [5, 7]).opacity = sliderOpacity 2 ∧
      1 / 10 ≤ (resolve_style "Solid Blue" 2 [5, 7]).opacity ∧
      (resolve_style "Solid Blue" 2 [5, 7]).opacity ≤ 1 ∧
      (resolve_style "Solid Blue" 2 [5, 7]).intensity = none := by
  have h := c7_style_resolver "Solid Blue" (by decide) 2 [5, 7]
  exact ⟨by decide, h.1, h.2.1, h.2.2.1, (h.2.2.2.2 (by decide)).1⟩

/-- The strategy loop of `find_thumbnail` tries the four strategies in
their listed order and stops at the first non-`none` result. -/
theorem find_thumbnail_order (d : DirListing) (id : String) :
    find_thumbnail d id =
      match find_in_images_dir d with
      | some p => some p
      | none =>
        match find_first_match d "*_Thumbnail*.png" with
        | some n => some [n]
        | none =>
          match find_first_match d ("*" ++ id ++ "*Thumbnail*.png") with
          | some n => some [n]
          | none => (find_first_match d "*.png").map fun n => [n] := by
  cases h1 : find_in_images_dir d with
  | some p => simp [find_thumbnail, firstSome, h1]
  | none =>
    cases h2 : find_first_match d "*_Thumbnail*.png" with
    | some n => simp [find_thumbnail, firstSome, h1, h2]
    | none =>
      cases h3 : find_first_match d ("*" ++ id ++ "*Thumbnail*.png") with
      | some n => simp [find_thumbnail, firstSome, h1, h2, h3]
      | none =>
        simp only [find_thumbnail, firstSome, h1, h2, h3]
        cases find_first_match d "*.png" <;> rfl

/-- A hit of `find_first_match` is a matching entry of the root that is
lexicographically least among the matching entries. -/
theorem find_first_match_min {d : DirListing} {pat n : String}
    (h : find_first_match d pat = some n) :
    n ∈ d.namesOf ∧ globMatches pat n = true ∧
      ∀ m ∈ d.namesOf, globMatches pat m = true → strLe n m := by
  unfold find_first_match at h
  cases hs : sortNames (d.namesOf.filter (globMatches pat)) with
  | nil => rw [hs] at h; exact Option.noConfusion h
  | cons a t =>
    rw [hs] at h
    have hn : a = n := Option.some_inj.mp h
    subst hn
    obtain ⟨hmem, hmin⟩ := sortNames_head_min hs
    obtain ⟨hm, hp⟩ := List.mem_filter.mp hmem
    exact ⟨hm, hp, fun m hmm hpm => hmin m (List.mem_filter.mpr ⟨hmm, hpm⟩)⟩

/-- C4: thumbnail resolution tries its four strategies in fixed
priority order and stops at the first non-empty result; a strategy hit
is the lexicographically-first of that strategy's matches; a non-empty
`images` subdirectory wins regardless of any other file, yielding its
lexicographically-first image file; and when every strategy misses the
result is absent, not an error. -/
theorem c4_thumbnail_strategies (d : DirListing) (id : String) :
    (find_thumbnail d id =
      match find_in_images_dir d with
      | some p => some p
      | none =>
        match find_first_match d "*_Thumbnail*.png" with
        | some n => some [n]
        | none =>
          match find_first_match d ("*" ++ id ++ "*Thumbnail*.png") with
          | some n => some [n]
          | none => (find_first_match d "*.png").map fun n => [n]) ∧
    (∀ pat n, find_first_match d pat = some n →
      n ∈ d.namesOf ∧ globMatches pat n = true ∧
        ∀ m ∈ d.namesOf, globMatches pat m = true → strLe n m) ∧
    (∀ es n t, d.findDir "images" = some es →
      sortNames (imageFilesOf es) = n :: t →
      find_thumbnail d id = some ["images", n] ∧ n ∈ imageFilesOf es ∧
        ∀ m ∈ imageFilesOf es, strLe n m) ∧
    (find_in_images_dir d = none →
      find_first_match d "*_Thumbnail*.png" = none →
      find_first_match d ("*" ++ id ++ "*Thumbnail*.png") = none →
      find_first_match d "*.png" = none →
      find_thumbnail d id = none) := by
  refine ⟨find_thumbnail_order d id, fun pat n h => find_first_match_min h, ?_, ?_⟩
  · intro es n t hdir hsort
    have himg : find_in_images_dir d = some ["images", n] := by
      unfold find_in_images_dir
      rw [findDir_hasEntry hdir, if_pos rfl, hdir]
      simp only [hsort]
    obtain ⟨hmem, hmin⟩ := sortNames_head_min hsort
    refine ⟨?_, hmem, hmin⟩
    rw [find_thumbnail_order d id, himg]
  · intro h1 h2 h3 h4
    rw [find_thumbnail_order d id, h1, h2, h3, h4]
    rfl

/-- C4 witness: a model root whose `images` subdirectory holds `z.png`
and `a.jpg`, with another png in the root. -/
theorem c4_thumbnail_strategies_witness :
    imagesTree.findDir "images" = some (.file "z.png" (.file "a.jpg" .nil)) ∧
      sortNames (imageFilesOf (.file "z.png" (.file "a.jpg" .nil))) = ["a.jpg", "z.png"] ∧
      find_thumbnail imagesTree "7" = some ["images", "a.jpg"] ∧
      "a.jpg" ∈ imageFilesOf (.file "z.png" (.file "a.jpg" .nil)) ∧
      ∀ m ∈ imageFilesOf (.file "z.png" (.file "a.jpg" .nil)), strLe "a.jpg" m := by
  have h := (c4_thumbnail_strategies imagesTree "7").2.2.1
    (.file "z.png" (.file "a.jpg" .nil)) "a.jpg" ["z.png"] (by decide) (by decide)
  exact ⟨by decide, by decide, h.1, h.2.1, h.2.2⟩

/-- C3 counterexample: for the model name "gadget" no identifier is
extractable, strategies 1 and 2 miss, and strategy 4 would give
`AAA.png`; yet resolution returns `AThumbnail.png`, because strategy 3
runs with the empty identifier (pattern `**Thumbnail*.png`) instead of
being skipped. -/
theorem c3_skipped_strategy_counterexample :
    extract_thing_id "gadget" = none ∧
      find_in_images_dir gadgetTree = none ∧
      find_first_match gadgetTree "*_Thumbnail*.png" = none ∧
      find_first_match gadgetTree "*.png" = some "AAA.png" ∧
      find_thumbnail gadgetTree ((extract_thing_id "gadget").getD "") =
        some ["AThumbnail.png"] := by
  decide

/-- C3 (amended): when no identifier is extractable the source
substitutes the empty string, so strategy 3 is not skipped — it runs
with the pattern `**Thumbnail*.png` and can contribute the winning
candidate before strategy 4 is consulted. -/
theorem c3_empty_identifier_strategy (d : DirListing)
    (h1 : find_in_images_dir d = none)
    (h2 : find_first_match d "*_Thumbnail*.png" = none) :
    find_thumbnail d "" =
      match find_first_match d "**Thumbnail*.png" with
      | some n => some [n]
      | none => (find_first_match d "*.png").map fun n => [n] := by
  rw [find_thumbnail_order d "", h1, h2]
  have hpat : ("*" ++ "" ++ "*Thumbnail*.png" : String) = "**Thumbnail*.png" := rfl
  rw [hpat]

/-- C3 witness: the "gadget" model root. -/
theorem c3_empty_identifier_strategy_witness :
    find_in_images_dir gadgetTree = none ∧
      find_first_match gadgetTree "*_Thumbnail*.png" = none ∧
      find_thumbnail gadgetTree "" =
        match find_first_match gadgetTree "**Thumbnail*.png" with
        | some n => some [n]
        | none => (find_first_match gadgetTree "*.png").map fun n => [n] :=
  ⟨by decide, by decide, c3_empty_identifier_strategy gadgetTree (by decide) (by decide)⟩

/-- C5 counterexample: a root whose only entry is `README.TXT`.  No
candidate of the case-sensitive list exists in the root and there is no
subdirectory at all, so under the claim the description would be
absent; yet resolution returns `README.TXT`, because the fallback walk
re-visits the root with lowercased matching: the walk is of the whole
directory, not only of its subdirectories. -/
theorem c5_root_lowercase_counterexample :
    readme_patterns.find? (fun p => upperReadmeTree.hasEntry p) = none ∧
      subWalk [] upperReadmeTree = [] ∧
      find_readme upperReadmeTree = some ["README.TXT"] := by
  decide

/-- Model root with no root readme but a case-variant readme inside a
subdirectory. -/
def subReadmeTree : DirListing :=
  .file "zzz.txt" (.dir "sub" (.file "Readme.MD" .nil) .nil)

/-- C5 (amended): description resolution returns the first existing
candidate of the fixed case-sensitive list in the model root; only when
none exists does it walk the directory — the root itself included —
returning the first file, in walk order, whose lowercased name is a
lowercased candidate: for the first walk entry holding a match, the
first matching file of that entry's file list is returned; it returns
`none` exactly when both searches miss, raising no error. -/
theorem c5_readme_resolution (d : DirListing) :
    (∀ p, readme_patterns.find? (fun q => d.hasEntry q) = some p →
      find_readme d = some [p]) ∧
    (readme_patterns.find? (fun q => d.hasEntry q) = none →
      ∀ f, d.filesOf.find? (fun g => lowercase_patterns.contains (toLowerStr g)) = some f →
        find_readme d = some [f]) ∧
    (readme_patterns.find? (fun q => d.hasEntry q) = none →
      ∀ pre pr post, walkDir [] d = pre ++ pr :: post →
        (∀ pr' ∈ pre, ∀ g ∈ pr'.2, lowercase_patterns.contains (toLowerStr g) = false) →
        ∀ fpre f fpost, pr.2 = fpre ++ f :: fpost →
          (∀ g ∈ fpre, lowercase_patterns.contains (toLowerStr g) = false) →
          lowercase_patterns.contains (toLowerStr f) = true →
          find_readme d = some (pr.1 ++ [f])) ∧
    (find_readme d = none ↔
      readme_patterns.find? (fun q => d.hasEntry q) = none ∧
        ∀ pr ∈ walkDir [] d, ∀ f ∈ pr.2,
          lowercase_patterns.contains (toLowerStr f) = false) := by
  refine ⟨?_, ?_, ?_, ?_⟩
  · intro p hp
    simp [find_readme, hp]
  · intro hnone f hf
    unfold find_readme
    rw [hnone]
    unfold walkDir
    rw [List.findSome?_cons, hf]
    rfl
  · intro hnone pre pr post hwalk hpre fpre f fpost hfiles hfpre hf
    unfold find_readme
    rw [hnone, hwalk, List.findSome?_append]
    have hpre_none :
        pre.findSome? (fun pr' =>
          (pr'.2.find? fun g => lowercase_patterns.contains (toLowerStr g)).map
            fun g => pr'.1 ++ [g]) = none := by
      rw [List.findSome?_eq_none_iff]
      intro x hx
      rw [Option.map_eq_none', List.find?_eq_none]
      intro g hg hmem
      rw [hpre x hx g hg] at hmem
      exact Bool.noConfusion hmem
    have hfind : pr.2.find? (fun g => lowercase_patterns.contains (toLowerStr g)) = some f := by
      rw [hfiles, List.find?_append]
      have h1 : fpre.find? (fun g => lowercase_patterns.contains (toLowerStr g)) = none := by
        rw [List.find?_eq_none]
        intro g hg hmem
        rw [hfpre g hg] at hmem
        exact Bool.noConfusion hmem
      rw [h1, Option.none_or]
      exact @List.find?_cons_of_pos _ (fun g => lowercase_patterns.contains (toLowerStr g))
        f fpost hf
    rw [hpre_none, Option.none_or, List.findSome?_cons, hfind]
    rfl
  · cases hf : readme_patterns.find? (fun q => d.hasEntry q) with
    | some p => simp [find_readme, hf]
    | none =>
      simp [find_readme, hf, List.findSome?_eq_none_iff, Option.map_eq_none',
        List.find?_eq_none]

/-- C5 witness: a root holding both `readme.md` and `README.txt`, where
the candidate list prefers `README.txt`; and `subReadmeTree`, where the
fallback walk returns the case-variant readme found in the `sub`
subdirectory. -/
theorem c5_readme_resolution_witness :
    readme_patterns.find?
        (fun q => (DirListing.file "readme.md" (.file "README.txt" .nil)).hasEntry q) =
      some "README.txt" ∧
      find_readme (.file "readme.md" (.file "README.txt" .nil)) = some ["README.txt"] ∧
      readme_patterns.find? (fun q => subReadmeTree.hasEntry q) = none ∧
      walkDir [] subReadmeTree =
        [([], ["zzz.txt"])] ++ (["sub"], ["Readme.MD"]) :: [] ∧
      find_readme subReadmeTree = some ["sub", "Readme.MD"] :=
  ⟨by decide,
   (c5_readme_resolution (.file "readme.md" (.file "README.txt" .nil))).1
     "README.txt" (by decide),
   by decide,
   by decide,
   (c5_readme_resolution subReadmeTree).2.2.1 (by decide)
     [([], ["zzz.txt"])] (["sub"], ["Readme.MD"]) [] (by decide) (by decide)
     [] "Readme.MD" [] (by decide) (by decide) (by decide)⟩

/-- `mesh5` after normalization. -/
def mesh5N : Mesh :=
  { vertices := [⟨-25, -25, -25⟩, ⟨75, -25, -25⟩, ⟨-25, 75, -25⟩, ⟨-25, -25, 75⟩,
                 ⟨25 / 3, 25 / 3, 25 / 3⟩],
    faces := [(0, 2, 1), (0, 1, 3), (0, 3, 2), (1, 2, 4), (2, 3, 4), (3, 1, 4)] }

/-- C2: a single-point mesh has zero extents in every axis, and the
normalization the code performs on it fails (the source divides by the
zero volume integral computing `center_mass` and would divide by the
zero extent computing `scale`; there is no degenerate-geometry branch),
instead of skipping the rescale with a `DegenerateGeometry` warning and
returning the mesh unchanged except for centering. -/
theorem c2_degenerate_normalize_fails :
    extentsOf singlePointMesh = ⟨0, 0, 0⟩ ∧ normalize singlePointMesh = none := by
  have hv : meshVolume singlePointMesh = 0 := by
    norm_num [meshVolume, Mesh.trianglesOf, Mesh.triangleOf, triCross, Vec3.sub, Vec3.cross,
      singlePointMesh]
  constructor
  · norm_num [extentsOf, xsOf, ysOf, zsOf, axisMax, axisMin, singlePointMesh]
  · simp [normalize, center_mass, hv]

/-- The sum of a list shifted by the negated list mean and then scaled
is exactly zero. -/
theorem centered_scaled_sum (l : List ℚ) (s c : ℚ) (hc : c = l.sum / l.length)
    (hl : (l.length : ℚ) ≠ 0) :
    ((l.map (fun x => x + -c)).map (fun x => s * x)).sum = 0 := by
  rw [sum_map_mul_const, sum_map_add_const, hc, mul_neg, mul_div_cancel₀ _ hl]
  ring

/-- C1 counterexample: for `mesh5` the point the code subtracts
(`trimesh.center_mass`, the volumetric centroid (3/2, 3/2, 3/2)) is not
the arithmetic mean of the vertex positions (8/5, 8/5, 8/5), and after
normalization the mean vertex position is (5/3, 5/3, 5/3), whose
magnitude far exceeds an epsilon of 1e-6 times the target extent 100. -/
theorem c1_centroid_counterexample :
    center_mass mesh5 = some ⟨3 / 2, 3 / 2, 3 / 2⟩ ∧
      vertexMean mesh5 = ⟨8 / 5, 8 / 5, 8 / 5⟩ ∧
      center_mass mesh5 ≠ some (vertexMean mesh5) ∧
      (normalize mesh5).map vertexMean = some ⟨5 / 3, 5 / 3, 5 / 3⟩ ∧
      ¬ ((5 : ℚ) / 3 ≤ 1 / 10000) := by
  have h1 : center_mass mesh5 = some ⟨3 / 2, 3 / 2, 3 / 2⟩ := by
    norm_num [center_mass, meshVolume, meshMoment, Mesh.trianglesOf, Mesh.triangleOf, triCross,
      Vec3.sub, Vec3.cross, f2sub, mesh5]
  have h2 : vertexMean mesh5 = ⟨8 / 5, 8 / 5, 8 / 5⟩ := by
    norm_num [vertexMean, xsOf, ysOf, zsOf, mesh5]
  have h4 : normalize mesh5 = some mesh5N := by
    norm_num [normalize, center_mass, meshVolume, meshMoment, Mesh.trianglesOf, Mesh.triangleOf,
      triCross, Vec3.sub, Vec3.cross, Vec3.neg, Vec3.add, f2sub, mesh5, mesh5N,
      apply_translation, apply_scale, maxExtent, extentsOf, xsOf, ysOf, zsOf, axisMax, axisMin,
      Vec3.smul, max_def]
  refine ⟨h1, h2, ?_, ?_, by norm_num⟩
  · rw [h1, h2]
    simp only [ne_eq, Option.some_inj, Vec3.mk.injEq]
    norm_num
  · rw [h4]
    norm_num [Option.map, mesh5N, vertexMean, xsOf, ysOf, zsOf]

/-- C1 (amended): the point the source subtracts is the volumetric
center of mass, not in general the vertex mean; but whenever the two
coincide (for instance on `tetra`) and normalization succeeds, the
normalized mesh's mean vertex position is exactly zero. -/
theorem c1_centroid_amended (m m' : Mesh) (h1 : normalize m = some m')
    (h2 : center_mass m = some (vertexMean m)) : vertexMean m' = Vec3.zero := by
  obtain ⟨c, e, hc, he, h0, hm'⟩ := normalize_some_iff.mp h1
  rw [h2, Option.some_inj] at hc
  subst hc
  have hvne : m.vertices ≠ [] := by
    have h' := maxExtent_vertices_ne_nil he
    simpa [apply_translation, List.map_eq_nil_iff] using h'
  have hlen : m.vertices.length ≠ 0 := by
    simpa [List.length_eq_zero] using hvne
  have hn : (m.vertices.length : ℚ) ≠ 0 := Nat.cast_ne_zero.mpr hlen
  subst hm'
  have hxs := xsOf_scale (apply_translation m (Vec3.neg (vertexMean m))) (100 / e)
  have hys := ysOf_scale (apply_translation m (Vec3.neg (vertexMean m))) (100 / e)
  have hzs := zsOf_scale (apply_translation m (Vec3.neg (vertexMean m))) (100 / e)
  rw [xsOf_translate] at hxs
  rw [ysOf_translate] at hys
  rw [zsOf_translate] at hzs
  have hnx : (Vec3.neg (vertexMean m)).x = -((xsOf m).sum / (xsOf m).length) := by
    simp [Vec3.neg, vertexMean, xsOf, List.length_map]
  have hny : (Vec3.neg (vertexMean m)).y = -((ysOf m).sum / (ysOf m).length) := by
    simp [Vec3.neg, vertexMean, ysOf, List.length_map]
  have hnz : (Vec3.neg (vertexMean m)).z = -((zsOf m).sum / (zsOf m).length) := by
    simp [Vec3.neg, vertexMean, zsOf, List.length_map]
  have hnx' : ((xsOf m).length : ℚ) ≠ 0 := by simpa [xsOf, List.length_map] using hn
  have hny' : ((ysOf m).length : ℚ) ≠ 0 := by simpa [ysOf, List.length_map] using hn
  have hnz' : ((zsOf m).length : ℚ) ≠ 0 := by simpa [zsOf, List.length_map] using hn
  have hx0 : (xsOf (apply_scale (apply_translation m (Vec3.neg (vertexMean m))) (100 / e))).sum = 0 := by
    rw [hxs, hnx]
    exact centered_scaled_sum _ _ _ rfl hnx'
  have hy0 : (ysOf (apply_scale (apply_translation m (Vec3.neg (vertexMean m))) (100 / e))).sum = 0 := by
    rw [hys, hny]
    exact centered_scaled_sum _ _ _ rfl hny'
  have hz0 : (zsOf (apply_scale (apply_translation m (Vec3.neg (vertexMean m))) (100 / e))).sum = 0 := by
    rw [hzs, hnz]
    exact centered_scaled_sum _ _ _ rfl hnz'
  set M2 := apply_scale (apply_translation m (Vec3.neg (vertexMean m))) (100 / e) with hM2
  simp only [vertexMean, Vec3.zero, Vec3.mk.injEq]
  refine ⟨?_, ?_, ?_⟩
  · rw [hx0, zero_div]
  · rw [hy0, zero_div]
  · rw [hz0, zero_div]

/-- C1 witness: `tetra`, whose volumetric centroid equals its vertex
mean. -/
theorem c1_centroid_amended_witness :
    normalize tetra = some tetraN ∧ center_mass tetra = some (vertexMean tetra) ∧
      vertexMean tetraN = Vec3.zero := by
  have h1 : normalize tetra = some tetraN := by
    norm_num [normalize, center_mass, meshVolume, meshMoment, Mesh.trianglesOf, Mesh.triangleOf,
      triCross, Vec3.sub, Vec3.cross, Vec3.neg, Vec3.add, f2sub, tetra, tetraN,
      apply_translation, apply_scale, maxExtent, extentsOf, xsOf, ysOf, zsOf, axisMax, axisMin,
      Vec3.smul, max_def]
  have h2 : center_mass tetra = some (vertexMean tetra) := by
    norm_num [center_mass, meshVolume, meshMoment, Mesh.trianglesOf, Mesh.triangleOf, triCross,
      Vec3.sub, Vec3.cross, f2sub, tetra, vertexMean, xsOf, ysOf, zsOf]
  exact ⟨h1, h2, c1_centroid_amended tetra tetraN h1 h2⟩

/-- C6 counterexample: the open single-triangle mesh `triMesh`
normalizes successfully, but normalizing the result again moves the
first vertex's x coordinate from 25 to 25/2 — a change of 12.5 units
against a target extent of 100, far beyond any small epsilon — because
the computed center of mass of the once-normalized open mesh is not
zero. -/
theorem c6_idempotence_counterexample :
    normalize triMesh = some triMeshN ∧
      normalize triMeshN = some triMeshNN ∧
      triMeshNN ≠ triMeshN ∧
      (triMeshN.vertices.getD 0 Vec3.zero).x - (triMeshNN.vertices.getD 0 Vec3.zero).x = 25 / 2 ∧
      ¬ ((25 : ℚ) / 2 ≤ 1 / 100) := by
  refine ⟨?_, ?_, ?_, ?_, by norm_num⟩
  · norm_num [normalize, center_mass, meshVolume, meshMoment, Mesh.trianglesOf, Mesh.triangleOf,
      triCross, Vec3.sub, Vec3.cross, Vec3.neg, Vec3.add, f2sub, triMesh, triMeshN,
      apply_translation, apply_scale, maxExtent, extentsOf, xsOf, ysOf, zsOf, axisMax, axisMin,
      Vec3.smul, max_def]
  · norm_num [normalize, center_mass, meshVolume, meshMoment, Mesh.trianglesOf, Mesh.triangleOf,
      triCross, Vec3.sub, Vec3.cross, Vec3.neg, Vec3.add, f2sub, triMeshN, triMeshNN,
      apply_translation, apply_scale, maxExtent, extentsOf, xsOf, ysOf, zsOf, axisMax, axisMin,
      Vec3.smul, max_def]
  · simp only [ne_eq, triMeshN, triMeshNN, Mesh.mk.injEq, List.cons.injEq, Vec3.mk.injEq]
    norm_num
  · norm_num [triMeshN, triMeshNN]

/-- C6 (amended): normalization is exactly idempotent on every mesh
whose normalized form has a computed center of mass of zero (as holds
for the closed meshes the volumetric-centroid formula is designed for);
on open meshes the re-computed center of mass need not be zero and a
second normalization can move the vertices (see the counterexample). -/
theorem c6_idempotence_amended (m m' : Mesh) (h1 : normalize m = some m')
    (h2 : center_mass m' = some Vec3.zero) : normalize m' = some m' := by
  obtain ⟨c, e, hc, he, h0, hm'⟩ := normalize_some_iff.mp h1
  have hee : 0 ≤ e := maxExtent_nonneg he
  have hepos : 0 < e := lt_of_le_of_ne hee (Ne.symm h0)
  have hs : 0 ≤ 100 / e := by positivity
  have hmax' : maxExtent m' = some 100 := by
    rw [hm', maxExtent_scale hs, he]
    simp [div_mul_cancel₀ _ h0]
  simp only [normalize, h2, translate_neg_zero, hmax']
  rw [if_neg (by norm_num : ¬ ((100 : ℚ) = 0))]
  rw [show (100 : ℚ) / 100 = 1 by norm_num, scale_one]

/-- C6 witness: `tetra` normalizes to `tetraN`, whose computed center
of mass is zero, and normalizing `tetraN` again returns it unchanged. -/
theorem c6_idempotence_amended_witness :
    normalize tetra = some tetraN ∧ center_mass tetraN = some Vec3.zero ∧
      normalize tetraN = some tetraN := by
  have h1 : normalize tetra = some tetraN := by
    norm_num [normalize, center_mass, meshVolume, meshMoment, Mesh.trianglesOf, Mesh.triangleOf,
      triCross, Vec3.sub, Vec3.cross, Vec3.neg, Vec3.add, f2sub, tetra, tetraN,
      apply_translation, apply_scale, maxExtent, extentsOf, xsOf, ysOf, zsOf, axisMax, axisMin,
      Vec3.smul, max_def]
  have h2 : center_mass tetraN = some Vec3.zero := by
    norm_num [center_mass, meshVolume, meshMoment, Mesh.trianglesOf, Mesh.triangleOf, triCross,
      Vec3.sub, Vec3.cross, f2sub, tetraN, Vec3.zero]
  exact ⟨h1, h2, c6_idempotence_amended tetra tetraN h1 h2⟩

end ThingDL
